import Mathlib

/-!
Shallow embedding of `my_youtube_music_playlists_importer.py`.

The Python script imports playlists from a JSON export into a remote music
service.  The remote client (`ytmusicapi.YTMusic`) and the Unicode category
table (`unicodedata.category`) are external collaborators; they are modelled
as parameters (`RemoteClient`, `cat : Char → String`).  Every client call and
every sleep of the script is recorded as an `Event` so that theorems can speak
about which remote calls were issued and which backoff or pacing sleeps
occurred.  Exceptions that the Python code does not catch (from
`get_library_playlists`, `create_playlist` and `search`) are modelled by
`Option`: a `none` outcome of those client operations aborts the whole run
(`none` result).
-/

namespace YTImport

/-! ## Data model (section 3 of the spec, shapes used by the script) -/

/-- Track record of the export file: `{name, artist}`. -/
structure ExportedTrack where
  name : String
  artist : String
deriving DecidableEq, Repr

/-- Playlist record of the export file: `{playlist_name, description, tracks}`. -/
structure ExportedPlaylist where
  playlist_name : String
  description : String
  tracks : List ExportedTrack
deriving DecidableEq, Repr

/-- Artist entry inside a remote playlist item (`{name}`). -/
structure ArtistRef where
  name : String
deriving DecidableEq, Repr

/-- Item already present in a remote playlist (`{videoId, title, artists}`). -/
structure RemotePlaylistItem where
  videoId : String
  title : String
  artists : List ArtistRef
deriving DecidableEq, Repr

/-- Entry of the library snapshot returned by `get_library_playlists`. -/
structure RemotePlaylistRef where
  playlistId : String
  title : String
deriving DecidableEq, Repr

/-- Search result entry; the script only reads `videoId` of the first hit. -/
structure SearchHit where
  videoId : String
  title : String
  artists : List ArtistRef
deriving DecidableEq, Repr

/-- Result of one `add_playlist_items` call: normal return, or a raised
exception carrying its message string (the script tests `"409" in str(e)`). -/
inductive AddResult where
  | ok
  | err (msg : String)
deriving DecidableEq, Repr

/-- The remote client, an oracle for the six operations the script uses.
`library_playlists = none`, `create_playlist _ _ = none` and `search _ = none`
model a raised exception that the script does not catch (lines 154, 181 and
198 sit outside every `try`); `add_playlist_items` is indexed by the 0-based
attempt number so that retry scenarios can be expressed. -/
structure RemoteClient where
  library_playlists : Option (List RemotePlaylistRef)
  delete_playlist : String → Bool
  create_playlist : String → String → Option String
  get_playlist : String → Option (List RemotePlaylistItem)
  search : String → Option (List SearchHit)
  add_playlist_items : String → String → Nat → AddResult

/-- The six counters accumulated by `import_playlists_from_json`. -/
structure Counters where
  total_playlists_created : Nat
  total_playlists_existing : Nat
  total_playlists_deleted : Nat
  total_tracks_success : Nat
  total_tracks_failed : Nat
  total_tracks_skipped_duplicates : Nat
deriving DecidableEq, Repr

/-- All counters start at zero (lines 147-152 of the script). -/
def Counters.zero : Counters := ⟨0, 0, 0, 0, 0, 0⟩

/-- Observable events of a run: remote calls and sleeps, in program order. -/
inductive Event where
  | createCall (name description : String)
  | deleteCall (pid : String)
  | getPlaylistCall (pid : String)
  | searchCall (query : String)
  | insertCall (pid vid : String) (attempt : Nat)
  | backoffSleep (seconds : Nat)
  | delaySleep
deriving DecidableEq, Repr

/-- Outcome of processing one track.  `noAttempt` is the degenerate path taken
when `api_max_retries = 0`: the `for attempt in range(0)` body never runs, so
no counter is touched at all. -/
inductive TrackOutcome where
  | added
  | skippedDuplicate
  | notFound
  | failedTrack
  | noAttempt
deriving DecidableEq, Repr

/-! ## String helpers mirroring the Python primitives -/

/-- Python `str.lower()`, modelled character-wise (ASCII case mapping). -/
def pyLower (s : String) : String := ⟨s.data.map Char.toLower⟩

/-- Whitespace set of Python `str.strip()` (ASCII whitespace plus the Unicode
space separators Python strips by default). -/
def isPySpace (c : Char) : Bool :=
  c = ' ' || c = '\t' || c = '\n' || c = '\r' || c = '\x0b' || c = '\x0c' ||
  c = '\x1c' || c = '\x1d' || c = '\x1e' || c = '\x1f' || c = '\x85' ||
  c = '\xa0' || c = '\u1680' || c = '\u2000' || c = '\u2001' || c = '\u2002' ||
  c = '\u2003' || c = '\u2004' || c = '\u2005' || c = '\u2006' || c = '\u2007' ||
  c = '\u2008' || c = '\u2009' || c = '\u200a' || c = '\u2028' || c = '\u2029' ||
  c = '\u202f' || c = '\u205f' || c = '\u3000'

/-- Remove leading and trailing whitespace from a character list
(Python `str.strip()`). -/
def stripChars (l : List Char) : List Char :=
  ((l.dropWhile isPySpace).reverse.dropWhile isPySpace).reverse

/-- Python `str.strip()` on strings. -/
def pyStrip (s : String) : String := ⟨stripChars s.data⟩

/-- The characters removed by `re.sub(r'[\\/*?:"<>|]', '', name)`. -/
def invalidFileChar (c : Char) : Bool :=
  c = '\\' || c = '/' || c = '*' || c = '?' || c = ':' || c = '"' ||
  c = '<' || c = '>' || c = '|'

/-- Python `s.startswith(c)` for a one-character needle: test on the first
character of the string. -/
def headIs (s : String) (c : Char) : Bool :=
  match s.data with
  | [] => false
  | x :: _ => x == c

/-- The inner `is_valid_char` of `sanitize_playlist_name`: keep a character
unless its Unicode category (per the external table `cat`) starts with `C`
or `S`. -/
def is_valid_char (cat : Char → String) (c : Char) : Bool :=
  !(headIs (cat c) 'C' || headIs (cat c) 'S')

/-- Character-list core of `sanitize_playlist_name`: filter by category,
remove filesystem-invalid characters, then strip. -/
def sanitizeChars (cat : Char → String) (l : List Char) : List Char :=
  stripChars ((l.filter (is_valid_char cat)).filter (fun c => !invalidFileChar c))

/-- Function `sanitize_playlist_name` (lines 102-122): drop category-C/S characters,
drop `\ / * ? : " < > |`, strip surrounding whitespace. -/
def sanitize_playlist_name (cat : Char → String) (name : String) : String :=
  ⟨sanitizeChars cat name.data⟩

/-- Leading-segment test on character lists (helper for substring search). -/
def leadsWith : List Char → List Char → Bool
  | [], _ => true
  | _ :: _, [] => false
  | a :: as, b :: bs => a == b && leadsWith as bs

/-- Substring test on character lists (Python `needle in hay`). -/
def containsSub (needle : List Char) : List Char → Bool
  | [] => leadsWith needle []
  | c :: rest => leadsWith needle (c :: rest) || containsSub needle rest

/-- The script's conflict test `"409" in str(e)`. -/
def contains409 (e : String) : Bool := containsSub "409".data e.data

/-! ## The retry loop (lines 222-245) -/

/-- The body of `for attempt in range(api_max_retries)`: `remaining` is the
number of loop indices still to run, `attempt` the current 0-based index (the
top-level call uses `remaining = api_max_retries`, `attempt = 0`).  A `409`
error with a later attempt still available sleeps `2 ^ attempt` seconds and
retries; any other error, or a `409` on the final attempt, counts the track
as failed and leaves the loop. -/
def insertLoop (add : Nat → AddResult) (pid vid : String) :
    Nat → Nat → TrackOutcome × List Event
  | 0, _ => (.noAttempt, [])
  | remaining + 1, attempt =>
    match add attempt with
    | .ok => (.added, [.insertCall pid vid attempt])
    | .err e =>
      if contains409 e = true ∧ 0 < remaining then
        let rest := insertLoop add pid vid remaining (attempt + 1)
        (rest.1, .insertCall pid vid attempt :: .backoffSleep (2 ^ attempt) :: rest.2)
      else
        (.failedTrack, [.insertCall pid vid attempt])

/-! ## Per-track processing (lines 193-250) -/

/-- The duplicate test of lines 207-212: some baseline item has the candidate
`videoId`, or matches the track's name and comma-joined artists
case-insensitively. -/
def duplicate_found (current_tracks : List RemotePlaylistItem)
    (track : ExportedTrack) (video_id : String) : Bool :=
  current_tracks.any fun t =>
    t.videoId == video_id ||
    (pyLower t.title == pyLower track.name &&
      pyLower (String.intercalate ", " (t.artists.map ArtistRef.name)) ==
        pyLower track.artist)

/-- Process one track (loop body of lines 193-250): search, duplicate check,
insert with retry, pacing sleep.  Returns `none` when `search` raises (the
script does not catch that exception).  The duplicate-skip branch executes
`continue`, which jumps over the `time.sleep(api_delay)` of line 247. -/
def processTrack (client : RemoteClient) (pid : String)
    (current_tracks : List RemotePlaylistItem) (allow_duplicates : Bool)
    (api_max_retries : Nat) (c : Counters) (track : ExportedTrack) :
    Option (TrackOutcome × Counters × List Event) :=
  let query := track.name ++ " " ++ track.artist
  match client.search query with
  | none => none
  | some [] =>
    some (.notFound,
      { c with total_tracks_failed := c.total_tracks_failed + 1 },
      [.searchCall query])
  | some (hit :: _) =>
    let video_id := hit.videoId
    if duplicate_found current_tracks track video_id = true ∧ allow_duplicates = false then
      some (.skippedDuplicate,
        { c with total_tracks_skipped_duplicates := c.total_tracks_skipped_duplicates + 1 },
        [.searchCall query])
    else
      let r := insertLoop (client.add_playlist_items pid video_id) pid video_id
        api_max_retries 0
      let c' := match r.1 with
        | .added => { c with total_tracks_success := c.total_tracks_success + 1 }
        | .failedTrack => { c with total_tracks_failed := c.total_tracks_failed + 1 }
        | _ => c
      some (r.1, c', .searchCall query :: r.2 ++ [.delaySleep])

/-- Fold of `processTrack` over the playlist's tracks, in file order. -/
def processTracks (client : RemoteClient) (pid : String)
    (current_tracks : List RemotePlaylistItem) (allow_duplicates : Bool)
    (api_max_retries : Nat) : Counters → List ExportedTrack →
    Option (Counters × List Event)
  | c, [] => some (c, [])
  | c, t :: ts =>
    match processTrack client pid current_tracks allow_duplicates api_max_retries c t with
    | none => none
    | some (_, c', evs) =>
      match processTracks client pid current_tracks allow_duplicates api_max_retries c' ts with
      | none => none
      | some (c'', evs') => some (c'', evs ++ evs')

/-! ## Per-playlist processing (lines 156-250) -/

/-- Baseline fetch and track loop shared by all resolution branches: the
`get_playlist` call is wrapped in `try/except` with fallback `[]`. -/
def processResolved (client : RemoteClient) (allow_duplicates : Bool)
    (api_max_retries : Nat) (pid : String) (c : Counters)
    (tracks : List ExportedTrack) : Option (Counters × List Event) :=
  let current_tracks := (client.get_playlist pid).getD []
  match processTracks client pid current_tracks allow_duplicates api_max_retries c tracks with
  | none => none
  | some (c', evs) => some (c', .getPlaylistCall pid :: evs)

/-- Loop body of `for playlist in playlists`: reconcile the sanitized name
against the snapshot (first match wins, via `next(...)`), delete / reuse /
create per `delete_if_exists`, then process the tracks.  A failing delete
executes `continue` (playlist skipped); a raising `create_playlist` aborts
the run (`none`). -/
def processPlaylist (cat : Char → String) (client : RemoteClient)
    (allow_duplicates delete_if_exists : Bool) (api_max_retries : Nat)
    (existing_playlists : List RemotePlaylistRef) (c : Counters)
    (playlist : ExportedPlaylist) : Option (Counters × List Event) :=
  let name := sanitize_playlist_name cat playlist.playlist_name
  let description := playlist.description
  match existing_playlists.find? (fun p => pyLower p.title == pyLower name) with
  | some existing =>
    if delete_if_exists then
      if client.delete_playlist existing.playlistId then
        let c1 := { c with total_playlists_deleted := c.total_playlists_deleted + 1 }
        match client.create_playlist name description with
        | none => none
        | some pid =>
          let c2 := { c1 with total_playlists_created := c1.total_playlists_created + 1 }
          match processResolved client allow_duplicates api_max_retries pid c2 playlist.tracks with
          | none => none
          | some (c', evs) =>
            some (c', .deleteCall existing.playlistId :: .createCall name description :: evs)
      else
        some (c, [.deleteCall existing.playlistId])
    else
      let c1 := { c with total_playlists_existing := c.total_playlists_existing + 1 }
      match processResolved client allow_duplicates api_max_retries
          existing.playlistId c1 playlist.tracks with
      | none => none
      | some (c', evs) => some (c', evs)
  | none =>
    match client.create_playlist name description with
    | none => none
    | some pid =>
      let c1 := { c with total_playlists_created := c.total_playlists_created + 1 }
      match processResolved client allow_duplicates api_max_retries pid c1 playlist.tracks with
      | none => none
      | some (c', evs) => some (c', .createCall name description :: evs)

/-- Fold of `processPlaylist` over the input playlists, in file order. -/
def processPlaylists (cat : Char → String) (client : RemoteClient)
    (allow_duplicates delete_if_exists : Bool) (api_max_retries : Nat)
    (existing_playlists : List RemotePlaylistRef) :
    Counters → List ExportedPlaylist → Option (Counters × List Event)
  | c, [] => some (c, [])
  | c, p :: ps =>
    match processPlaylist cat client allow_duplicates delete_if_exists api_max_retries
        existing_playlists c p with
    | none => none
    | some (c', evs) =>
      match processPlaylists cat client allow_duplicates delete_if_exists api_max_retries
          existing_playlists c' ps with
      | none => none
      | some (c'', evs') => some (c'', evs ++ evs')

/-- Function `import_playlists_from_json` (lines 125-253), with the file already
parsed: fetch the snapshot once (line 154, uncaught on failure), then process
every playlist starting from zero counters.  `none` models an uncaught
exception escaping the function. -/
def import_playlists_from_json (cat : Char → String) (client : RemoteClient)
    (playlists : List ExportedPlaylist) (allow_duplicates delete_if_exists : Bool)
    (api_max_retries : Nat) : Option (Counters × List Event) :=
  match client.library_playlists with
  | none => none
  | some existing_playlists =>
    processPlaylists cat client allow_duplicates delete_if_exists api_max_retries
      existing_playlists Counters.zero playlists

/-! ## Observers on event traces -/

/-- Number of `insertCall` events in a trace. -/
def countInsert (evs : List Event) : Nat :=
  (evs.filter fun e => match e with | .insertCall _ _ _ => true | _ => false).length

/-- Names passed to `create_playlist`, in call order. -/
def createNames (evs : List Event) : List String :=
  evs.filterMap fun e => match e with | .createCall n _ => some n | _ => none

/-- Playlist ids passed to `delete_playlist`, in call order. -/
def deleteIds (evs : List Event) : List String :=
  evs.filterMap fun e => match e with | .deleteCall i => some i | _ => none

/-- Whether an `add_playlist_items` result is a conflict-class error. -/
def isConflictR : AddResult → Bool
  | .ok => false
  | .err e => contains409 e

/-- Shape of the retry loop's trace when `j` attempts are made starting at
index `attempt`: each attempt except the last is followed by a backoff sleep
of `2 ^ k` seconds (`k` the 0-based attempt index), and no sleep follows the
last attempt. -/
def traceShape (pid vid : String) : Nat → Nat → List Event
  | 0, _ => []
  | 1, attempt => [.insertCall pid vid attempt]
  | j + 2, attempt =>
    .insertCall pid vid attempt :: .backoffSleep (2 ^ attempt) ::
      traceShape pid vid (j + 1) (attempt + 1)

/-! ## Lemmas about the retry loop -/

theorem insertLoop_shape (add : Nat → AddResult) (pid vid : String) :
    ∀ r a, 0 < r → ∃ j, 1 ≤ j ∧ j ≤ r ∧
      (insertLoop add pid vid r a).2 = traceShape pid vid j a ∧
      (∀ k, k + 1 < j → ∃ e, add (a + k) = .err e ∧ contains409 e = true) ∧
      ((insertLoop add pid vid r a).1 = .added ↔ add (a + (j - 1)) = .ok) := by
  intro r
  induction r with
  | zero => omega
  | succ r ih =>
    intro a _
    match h : add a with
    | .ok =>
      refine ⟨1, le_refl 1, by omega, by simp [insertLoop, h, traceShape],
        fun k hk => absurd hk (by omega), ?_⟩
      simp [insertLoop, h]
    | .err e =>
      by_cases hc : contains409 e = true ∧ 0 < r
      · obtain ⟨j', h1, h2, h3, h4, h5⟩ := ih (a + 1) hc.2
        obtain ⟨j'', rfl⟩ : ∃ j'', j' = j'' + 1 := ⟨j' - 1, by omega⟩
        refine ⟨j'' + 2, by omega, by omega, ?_, ?_, ?_⟩
        · simp [insertLoop, h, hc, traceShape, h3]
        · intro k hk
          match k with
          | 0 => exact ⟨e, by simpa using h, hc.1⟩
          | k' + 1 =>
            obtain ⟨e', he', hce'⟩ := h4 k' (by omega)
            refine ⟨e', ?_, hce'⟩
            have hidx : a + (k' + 1) = a + 1 + k' := by omega
            rw [hidx]
            exact he'
        · have hidx : a + (j'' + 2 - 1) = a + 1 + (j'' + 1 - 1) := by omega
          rw [hidx]
          have hL : (insertLoop add pid vid (r + 1) a).1 =
              (insertLoop add pid vid r (a + 1)).1 := by
            simp [insertLoop, h, hc]
          rw [hL]
          exact h5
      · refine ⟨1, le_refl 1, by omega, by simp [insertLoop, h, hc, traceShape],
          fun k hk => absurd hk (by omega), ?_⟩
        simp [insertLoop, h, hc]

theorem countInsert_traceShape (pid vid : String) :
    ∀ j a, countInsert (traceShape pid vid j a) = j := by
  intro j
  induction j using Nat.strong_induction_on with
  | _ j ih =>
    intro a
    match j with
    | 0 => simp [traceShape, countInsert]
    | 1 => simp [traceShape, countInsert]
    | j + 2 =>
      have hj := ih (j + 1) (by omega) (a + 1)
      simp [traceShape, countInsert] at hj ⊢
      omega

theorem insertLoop_attempts_le (add : Nat → AddResult) (pid vid : String)
    (m : Nat) : countInsert (insertLoop add pid vid m 0).2 ≤ m := by
  match m with
  | 0 => simp [insertLoop, countInsert]
  | r + 1 =>
    obtain ⟨j, h1, h2, h3, _, _⟩ := insertLoop_shape add pid vid (r + 1) 0 (by omega)
    rw [h3, countInsert_traceShape]
    exact h2

theorem insertLoop_nonconflict_terminal (add : Nat → AddResult) (pid vid : String)
    (r a : Nat) (e : String) (hr : 0 < r) (h : add a = .err e)
    (hc : contains409 e = false) :
    insertLoop add pid vid r a = (.failedTrack, [.insertCall pid vid a]) := by
  match r with
  | s + 1 => simp [insertLoop, h, hc]

theorem insertLoop_all_conflict_three (add : Nat → AddResult) (pid vid : String)
    (hconf : ∀ k, isConflictR (add k) = true) :
    insertLoop add pid vid 3 0 = (.failedTrack,
      [.insertCall pid vid 0, .backoffSleep 1, .insertCall pid vid 1,
       .backoffSleep 2, .insertCall pid vid 2]) := by
  have g : ∀ k, ∃ e, add k = .err e ∧ contains409 e = true := by
    intro k
    have := hconf k
    match h : add k with
    | .ok => rw [h] at this; simp [isConflictR] at this
    | .err e => rw [h] at this; simp [isConflictR] at this; exact ⟨e, rfl, this⟩
  obtain ⟨e0, h0, c0⟩ := g 0
  obtain ⟨e1, h1, c1⟩ := g 1
  obtain ⟨e2, h2, c2⟩ := g 2
  simp [insertLoop, h0, h1, h2, c0, c1, c2]

theorem insertLoop_pos_outcome (add : Nat → AddResult) (pid vid : String) :
    ∀ r a, 0 < r → (insertLoop add pid vid r a).1 = .added ∨
      (insertLoop add pid vid r a).1 = .failedTrack := by
  intro r
  induction r with
  | zero => omega
  | succ r ih =>
    intro a _
    match h : add a with
    | .ok => simp [insertLoop, h]
    | .err e =>
      by_cases hc : contains409 e = true ∧ 0 < r
      · have := ih (a + 1) hc.2
        simpa [insertLoop, h, hc] using this
      · simp [insertLoop, h, hc]

theorem insertLoop_zero (add : Nat → AddResult) (pid vid : String) (a : Nat) :
    insertLoop add pid vid 0 a = (.noAttempt, []) := by
  simp [insertLoop]

theorem insertLoop_mem_insertCall (add : Nat → AddResult) (pid vid : String)
    (r a : Nat) (hr : 0 < r) :
    Event.insertCall pid vid a ∈ (insertLoop add pid vid r a).2 := by
  match r with
  | s + 1 =>
    match h : add a with
    | .ok => simp [insertLoop, h]
    | .err e =>
      by_cases hc : contains409 e = true ∧ 0 < s
      · simp [insertLoop, h, hc]
      · simp [insertLoop, h, hc]

theorem insertLoop_event_kinds (add : Nat → AddResult) (pid vid : String) :
    ∀ r a e, e ∈ (insertLoop add pid vid r a).2 →
      (∃ p v k, e = .insertCall p v k) ∨ (∃ s, e = .backoffSleep s) := by
  intro r
  induction r with
  | zero => intro a e h; simp [insertLoop] at h
  | succ r ih =>
    intro a e h
    match hadd : add a with
    | .ok =>
      simp [insertLoop, hadd] at h
      exact Or.inl ⟨pid, vid, a, h⟩
    | .err s =>
      by_cases hc : contains409 s = true ∧ 0 < r
      · simp [insertLoop, hadd, hc] at h
        rcases h with h | h | h
        · exact Or.inl ⟨pid, vid, a, h⟩
        · exact Or.inr ⟨2 ^ a, h⟩
        · exact ih (a + 1) e h
      · simp [insertLoop, hadd, hc] at h
        exact Or.inl ⟨pid, vid, a, h⟩

/-- C1: for every track insertion the retry loop makes at most
`api_max_retries` attempts; only a conflict-class error triggers a retry —
the run makes some number `j` of attempts whose trace has the shape
`traceShape` (a backoff of `2 ^ k` seconds slept before the `(k+1)`-th
attempt, none after the last), every non-final attempt `k` (one that a retry
followed) failed with a `409` error, and a non-`409` error at any reached
attempt `k` is terminal: `k` is the last attempt and the outcome is failed —
equivalently, from any loop state, a non-conflict error ends the loop at once
with a single insert call and no backoff; and when every attempt fails with a
conflict and `api_max_retries = 3` the outcome is failed after exactly 3
attempts with exactly the two backoff sleeps of 1 s and 2 s. -/
theorem claim_C1 (add : Nat → AddResult) (pid vid : String) (m : Nat) :
    countInsert (insertLoop add pid vid m 0).2 ≤ m ∧
    (∀ r a e, 0 < r → add a = .err e → contains409 e = false →
      insertLoop add pid vid r a = (.failedTrack, [.insertCall pid vid a])) ∧
    (0 < m → ∃ j, 1 ≤ j ∧ j ≤ m ∧
      (insertLoop add pid vid m 0).2 = traceShape pid vid j 0 ∧
      (∀ k, k + 1 < j → ∃ e, add k = .err e ∧ contains409 e = true) ∧
      (∀ k e, k < j → add k = .err e → contains409 e = false →
        k + 1 = j ∧ (insertLoop add pid vid m 0).1 = .failedTrack)) ∧
    ((∀ k, isConflictR (add k) = true) → m = 3 →
      insertLoop add pid vid m 0 = (.failedTrack,
        [.insertCall pid vid 0, .backoffSleep 1, .insertCall pid vid 1,
         .backoffSleep 2, .insertCall pid vid 2])) := by
  refine ⟨insertLoop_attempts_le add pid vid m, ?_, ?_, ?_⟩
  · intro r a e hr h hc
    exact insertLoop_nonconflict_terminal add pid vid r a e hr h hc
  · intro hm
    obtain ⟨j, h1, h2, h3, h4, h5⟩ := insertLoop_shape add pid vid m 0 hm
    have h4' : ∀ k, k + 1 < j → ∃ e, add k = .err e ∧ contains409 e = true := by
      intro k hk
      obtain ⟨e, he, hce⟩ := h4 k hk
      rw [Nat.zero_add] at he
      exact ⟨e, he, hce⟩
    refine ⟨j, h1, h2, h3, h4', ?_⟩
    intro k e hk hadd hnc
    have hkj : k + 1 = j := by
      by_contra hne
      obtain ⟨e', he', hce'⟩ := h4' k (by omega)
      rw [hadd] at he'
      injection he' with hee
      rw [hee, hce'] at hnc
      exact Bool.noConfusion hnc
    refine ⟨hkj, ?_⟩
    have hne : (insertLoop add pid vid m 0).1 ≠ .added := by
      intro hadded
      have hk0 : add (0 + (j - 1)) = .ok := h5.mp hadded
      rw [Nat.zero_add] at hk0
      have hjk : j - 1 = k := by omega
      rw [hjk, hadd] at hk0
      exact AddResult.noConfusion hk0
    rcases insertLoop_pos_outcome add pid vid m 0 hm with ho | ho
    · exact absurd ho hne
    · exact ho
  · intro hconf hm
    subst hm
    exact insertLoop_all_conflict_three add pid vid hconf

/-- Witness for C1 at a concrete always-conflicting client with
`api_max_retries = 3`. -/
theorem claim_C1_witness :
    insertLoop (fun _ => AddResult.err "HTTP 409 Conflict") "p" "v" 3 0 =
      (TrackOutcome.failedTrack,
        [Event.insertCall "p" "v" 0, Event.backoffSleep 1,
         Event.insertCall "p" "v" 1, Event.backoffSleep 2,
         Event.insertCall "p" "v" 2]) :=
  (claim_C1 (fun _ => AddResult.err "HTTP 409 Conflict") "p" "v" 3).2.2.2
    (fun _ => by decide) rfl

/-! ## Duplicate detection and per-track counting -/

/-- C2: a found track is judged a duplicate iff the top search result's
`videoId` equals some baseline item's id, or some baseline item's title equals
the track name case-insensitively and its comma-joined artist names equal the
track artist case-insensitively; a duplicate with `allow_duplicates = false`
yields outcome `skippedDuplicate`, increments the skipped counter and issues
no insertion call (the trace is just the search call); with
`allow_duplicates = true` an insertion call is issued regardless of any
baseline match. -/
theorem claim_C2 (client : RemoteClient) (pid : String)
    (baseline : List RemotePlaylistItem) (track : ExportedTrack)
    (hit : SearchHit) (rest : List SearchHit) (m : Nat) (c : Counters)
    (hs : client.search (track.name ++ " " ++ track.artist) = some (hit :: rest)) :
    (∀ vid, duplicate_found baseline track vid = true ↔
      ∃ t ∈ baseline, t.videoId = vid ∨
        (pyLower t.title = pyLower track.name ∧
          pyLower (String.intercalate ", " (t.artists.map ArtistRef.name)) =
            pyLower track.artist)) ∧
    (duplicate_found baseline track hit.videoId = true →
      processTrack client pid baseline false m c track =
        some (.skippedDuplicate,
          { c with total_tracks_skipped_duplicates :=
              c.total_tracks_skipped_duplicates + 1 },
          [.searchCall (track.name ++ " " ++ track.artist)])) ∧
    (0 < m → ∃ out c' evs,
      processTrack client pid baseline true m c track = some (out, c', evs) ∧
        Event.insertCall pid hit.videoId 0 ∈ evs) := by
  refine ⟨?_, ?_, ?_⟩
  · intro vid
    simp [duplicate_found, List.any_eq_true]
  · intro hd
    simp [processTrack, hs, hd]
  · intro hm
    refine ⟨(insertLoop (client.add_playlist_items pid hit.videoId) pid hit.videoId m 0).1,
      ?_, ?_, ?_, ?_⟩
    · exact match (insertLoop (client.add_playlist_items pid hit.videoId) pid
        hit.videoId m 0).1 with
      | .added => { c with total_tracks_success := c.total_tracks_success + 1 }
      | .failedTrack => { c with total_tracks_failed := c.total_tracks_failed + 1 }
      | _ => c
    · exact .searchCall (track.name ++ " " ++ track.artist) ::
        (insertLoop (client.add_playlist_items pid hit.videoId) pid hit.videoId m 0).2 ++
        [.delaySleep]
    · simp [processTrack, hs]
    · exact List.mem_cons_of_mem _ (List.mem_append_left _
        (insertLoop_mem_insertCall _ pid hit.videoId m 0 hm))

/-- Concrete Unicode-category table covering the Latin range, used to
instantiate the external `unicodedata.category` parameter in witnesses. -/
def catLatin : Char → String := fun c =>
  if c.isUpper then "Lu"
  else if c.isLower then "Ll"
  else if c.isDigit then "Nd"
  else if c = ' ' then "Zs"
  else if c.val < 32 then "Cc"
  else if c = '$' ∨ c = '+' then "Sm"
  else "Po"

/-- Concrete client whose search always returns the single hit `v1` and whose
other operations succeed, used by witnesses and counterexamples. -/
def clDup : RemoteClient where
  library_playlists := some []
  delete_playlist := fun _ => true
  create_playlist := fun _ _ => some "pl"
  get_playlist := fun _ => some []
  search := fun _ => some [⟨"v1", "t", []⟩]
  add_playlist_items := fun _ _ _ => .ok

/-- Witness for C2: a track whose top hit `v1` already sits in the baseline is
skipped as a duplicate with the skipped counter incremented and only the
search call in the trace. -/
theorem claim_C2_witness :
    processTrack clDup "p" [⟨"v1", "x", []⟩] false 3 Counters.zero ⟨"a", "b"⟩ =
      some (.skippedDuplicate, ⟨0, 0, 0, 0, 0, 1⟩, [.searchCall "a b"]) :=
  (claim_C2 clDup "p" [⟨"v1", "x", []⟩] ⟨"a", "b"⟩ ⟨"v1", "t", []⟩ [] 3
    Counters.zero rfl).2.1 (by decide)

/-- C3 as amended: with `api_max_retries ≥ 1`, every processed track under a
resolved playlist increments exactly one of the three track counters by one
(success on insertion, skipped on duplicate, failed on search miss or
insertion failure). -/
theorem claim_C3 (client : RemoteClient) (pid : String)
    (baseline : List RemotePlaylistItem) (allow : Bool) (m : Nat) (c : Counters)
    (track : ExportedTrack) (out : TrackOutcome) (c' : Counters)
    (evs : List Event) (hm : 0 < m)
    (h : processTrack client pid baseline allow m c track = some (out, c', evs)) :
    c' = { c with total_tracks_success := c.total_tracks_success + 1 } ∨
    c' = { c with total_tracks_skipped_duplicates :=
        c.total_tracks_skipped_duplicates + 1 } ∨
    c' = { c with total_tracks_failed := c.total_tracks_failed + 1 } := by
  match hs : client.search (track.name ++ " " ++ track.artist) with
  | none => simp [processTrack, hs] at h
  | some [] =>
    simp [processTrack, hs] at h
    exact Or.inr (Or.inr h.2.1.symm)
  | some (hit :: rest) =>
    by_cases hd : duplicate_found baseline track hit.videoId = true ∧ allow = false
    · simp [processTrack, hs, hd] at h
      exact Or.inr (Or.inl h.2.1.symm)
    · rcases insertLoop_pos_outcome (client.add_playlist_items pid hit.videoId)
        pid hit.videoId m 0 hm with ho | ho
      · simp [processTrack, hs, hd, ho] at h
        exact Or.inl h.2.1.symm
      · simp [processTrack, hs, hd, ho] at h
        exact Or.inr (Or.inr h.2.1.symm)

/-- Counterexample to C3 as stated: with `api_max_retries = 0` the insertion
loop body never runs, so a found, non-duplicate track leaves all counters
unchanged — it is silently dropped from the counts. -/
theorem claim_C3_cex :
    processTrack clDup "p" [] false 0 Counters.zero ⟨"a", "b"⟩ =
      some (.noAttempt, Counters.zero, [.searchCall "a b", .delaySleep]) := by
  decide

/-- Witness for C3 at a concrete successful insertion. -/
theorem claim_C3_witness :
    (⟨0, 0, 0, 1, 0, 0⟩ : Counters) =
        { Counters.zero with total_tracks_success :=
            Counters.zero.total_tracks_success + 1 } ∨
      (⟨0, 0, 0, 1, 0, 0⟩ : Counters) =
        { Counters.zero with total_tracks_skipped_duplicates :=
            Counters.zero.total_tracks_skipped_duplicates + 1 } ∨
      (⟨0, 0, 0, 1, 0, 0⟩ : Counters) =
        { Counters.zero with total_tracks_failed :=
            Counters.zero.total_tracks_failed + 1 } :=
  claim_C3 clDup "p" [] false 3 Counters.zero ⟨"a", "b"⟩ .added ⟨0, 0, 0, 1, 0, 0⟩
    [.searchCall "a b", .insertCall "p" "v1" 0, .delaySleep] (by decide) (by decide)

theorem insertLoop_outcome_cases (add : Nat → AddResult) (pid vid : String) :
    ∀ r a, (insertLoop add pid vid r a).1 = .added ∨
      (insertLoop add pid vid r a).1 = .failedTrack ∨
      (insertLoop add pid vid r a).1 = .noAttempt := by
  intro r
  induction r with
  | zero => intro a; simp [insertLoop]
  | succ r ih =>
    intro a
    match h : add a with
    | .ok => simp [insertLoop, h]
    | .err e =>
      by_cases hc : contains409 e = true ∧ 0 < r
      · have := ih (a + 1)
        simpa [insertLoop, h, hc] using this
      · simp [insertLoop, h, hc]

/-- C5 as amended: the pacing sleep `time.sleep(api_delay)` occurs exactly for
the outcomes where the insertion loop was reached (`added`, `failedTrack`, and
the degenerate `noAttempt`); it does not occur for `skippedDuplicate` —
because the duplicate branch executes `continue`, jumping over line 247 — nor
for `notFound`. -/
theorem claim_C5 (client : RemoteClient) (pid : String)
    (baseline : List RemotePlaylistItem) (allow : Bool) (m : Nat) (c : Counters)
    (track : ExportedTrack) (out : TrackOutcome) (c' : Counters)
    (evs : List Event)
    (h : processTrack client pid baseline allow m c track = some (out, c', evs)) :
    Event.delaySleep ∈ evs ↔
      (out ≠ .skippedDuplicate ∧ out ≠ .notFound) := by
  match hs : client.search (track.name ++ " " ++ track.artist) with
  | none => simp [processTrack, hs] at h
  | some [] =>
    simp [processTrack, hs] at h
    obtain ⟨ho, _, hevs⟩ := h
    subst hevs
    simp [← ho]
  | some (hit :: rest) =>
    by_cases hd : duplicate_found baseline track hit.videoId = true ∧ allow = false
    · simp [processTrack, hs, hd] at h
      obtain ⟨ho, _, hevs⟩ := h
      subst hevs
      simp [← ho]
    · simp [processTrack, hs, hd] at h
      obtain ⟨ho, _, hevs⟩ := h
      subst hevs
      have hcases := insertLoop_outcome_cases (client.add_playlist_items pid hit.videoId)
        pid hit.videoId m 0
      constructor
      · intro _
        rcases hcases with hc | hc | hc <;> rw [← ho, hc] <;> simp
      · intro _
        simp

/-- Counterexample to C5 as stated: a duplicate-skipped track produces no
pacing sleep at all — its whole trace is the search call. -/
theorem claim_C5_cex :
    processTrack clDup "p" [⟨"v1", "x", []⟩] false 3 Counters.zero ⟨"a", "b"⟩ =
        some (.skippedDuplicate, ⟨0, 0, 0, 0, 0, 1⟩, [.searchCall "a b"]) ∧
      Event.delaySleep ∉ [Event.searchCall "a b"] := by
  decide

/-- Witness for C5 at a concrete successful insertion. -/
theorem claim_C5_witness :
    Event.delaySleep ∈
        [Event.searchCall "a b", Event.insertCall "p" "v1" 0, Event.delaySleep] ↔
      (TrackOutcome.added ≠ TrackOutcome.skippedDuplicate ∧
        TrackOutcome.added ≠ TrackOutcome.notFound) :=
  claim_C5 clDup "p" [] false 3 Counters.zero ⟨"a", "b"⟩ .added ⟨0, 0, 0, 1, 0, 0⟩
    [.searchCall "a b", .insertCall "p" "v1" 0, .delaySleep] (by decide)

/-! ## Run completion (error isolation) -/

theorem processTrack_isSome (client : RemoteClient) (pid : String)
    (baseline : List RemotePlaylistItem) (allow : Bool) (m : Nat)
    (hsearch : ∀ q, (client.search q).isSome) (c : Counters)
    (track : ExportedTrack) :
    (processTrack client pid baseline allow m c track).isSome := by
  match hs : client.search (track.name ++ " " ++ track.artist) with
  | none => have := hsearch (track.name ++ " " ++ track.artist); simp [hs] at this
  | some [] => simp [processTrack, hs]
  | some (hit :: rest) =>
    by_cases hd : duplicate_found baseline track hit.videoId = true ∧ allow = false
    · simp [processTrack, hs, hd]
    · simp [processTrack, hs, hd]

theorem processTracks_isSome (client : RemoteClient) (pid : String)
    (baseline : List RemotePlaylistItem) (allow : Bool) (m : Nat)
    (hsearch : ∀ q, (client.search q).isSome) :
    ∀ (tracks : List ExportedTrack) (c : Counters),
      (processTracks client pid baseline allow m c tracks).isSome := by
  intro tracks
  induction tracks with
  | nil => intro c; simp [processTracks]
  | cons t ts ih =>
    intro c
    have h1 := processTrack_isSome client pid baseline allow m hsearch c t
    match hpt : processTrack client pid baseline allow m c t with
    | none => rw [hpt] at h1; simp at h1
    | some (out, c', evs) =>
      have h2 := ih c'
      match hpts : processTracks client pid baseline allow m c' ts with
      | none => rw [hpts] at h2; simp at h2
      | some (c'', evs') => simp [processTracks, hpt, hpts]

theorem processResolved_isSome (client : RemoteClient) (allow : Bool) (m : Nat)
    (hsearch : ∀ q, (client.search q).isSome) (pid : String) (c : Counters)
    (tracks : List ExportedTrack) :
    (processResolved client allow m pid c tracks).isSome := by
  have h := processTracks_isSome client pid ((client.get_playlist pid).getD [])
    allow m hsearch tracks c
  match hpts : processTracks client pid ((client.get_playlist pid).getD [])
      allow m c tracks with
  | none => rw [hpts] at h; simp at h
  | some (c', evs) => simp [processResolved, hpts]

theorem processPlaylist_isSome (cat : Char → String) (client : RemoteClient)
    (allow del : Bool) (m : Nat) (snapshot : List RemotePlaylistRef)
    (hcreate : ∀ n d, (client.create_playlist n d).isSome)
    (hsearch : ∀ q, (client.search q).isSome) (c : Counters)
    (p : ExportedPlaylist) :
    (processPlaylist cat client allow del m snapshot c p).isSome := by
  have hres : ∀ pid c₀,
      ∃ v, processResolved client allow m pid c₀ p.tracks = some v := by
    intro pid c₀
    exact Option.isSome_iff_exists.mp
      (processResolved_isSome client allow m hsearch pid c₀ p.tracks)
  have hcre : ∀ n d, ∃ pid, client.create_playlist n d = some pid := by
    intro n d
    exact Option.isSome_iff_exists.mp (hcreate n d)
  match hf : snapshot.find? (fun q => pyLower q.title ==
      pyLower (sanitize_playlist_name cat p.playlist_name)) with
  | some existing =>
    by_cases hdel : del = true
    · by_cases hok : client.delete_playlist existing.playlistId = true
      · obtain ⟨pid, hcp⟩ := hcre (sanitize_playlist_name cat p.playlist_name)
          p.description
        obtain ⟨⟨c', evs⟩, hpr⟩ := hres pid
          { c with total_playlists_created := c.total_playlists_created + 1,
                   total_playlists_deleted := c.total_playlists_deleted + 1 }
        simp [processPlaylist, hf, hdel, hok, hcp, hpr]
      · simp [processPlaylist, hf, hdel, hok]
    · obtain ⟨⟨c', evs⟩, hpr⟩ := hres existing.playlistId
        { c with total_playlists_existing := c.total_playlists_existing + 1 }
      simp [processPlaylist, hf, hdel, hpr]
  | none =>
    obtain ⟨pid, hcp⟩ := hcre (sanitize_playlist_name cat p.playlist_name)
      p.description
    obtain ⟨⟨c', evs⟩, hpr⟩ := hres pid
      { c with total_playlists_created := c.total_playlists_created + 1 }
    simp [processPlaylist, hf, hcp, hpr]

theorem processPlaylists_isSome (cat : Char → String) (client : RemoteClient)
    (allow del : Bool) (m : Nat) (snapshot : List RemotePlaylistRef)
    (hcreate : ∀ n d, (client.create_playlist n d).isSome)
    (hsearch : ∀ q, (client.search q).isSome) :
    ∀ (pls : List ExportedPlaylist) (c : Counters),
      (processPlaylists cat client allow del m snapshot c pls).isSome := by
  intro pls
  induction pls with
  | nil => intro c; simp [processPlaylists]
  | cons p ps ih =>
    intro c
    have h1 := processPlaylist_isSome cat client allow del m snapshot hcreate hsearch c p
    match hp : processPlaylist cat client allow del m snapshot c p with
    | none => rw [hp] at h1; simp at h1
    | some (c', evs) =>
      have h2 := ih c'
      match hps : processPlaylists cat client allow del m snapshot c' ps with
      | none => rw [hps] at h2; simp at h2
      | some (c'', evs') => simp [processPlaylists, hp, hps]

/-- C4 as amended: provided the `get_library_playlists` snapshot fetch, the
`create_playlist` calls and the `search` calls do not raise (the script leaves
all three outside any `try`), a failure affecting one playlist (delete
failure, baseline-fetch failure) or one track (search miss, insertion failure,
retry exhaustion) never aborts the run: the import loop completes over all
playlists and returns the final counters, for every behaviour of the delete,
baseline-fetch and insertion operations. -/
theorem claim_C4 (cat : Char → String) (client : RemoteClient)
    (pls : List ExportedPlaylist) (allow del : Bool) (m : Nat)
    (hsnap : client.library_playlists.isSome)
    (hcreate : ∀ n d, (client.create_playlist n d).isSome)
    (hsearch : ∀ q, (client.search q).isSome) :
    (import_playlists_from_json cat client pls allow del m).isSome := by
  match hs : client.library_playlists with
  | none => rw [hs] at hsnap; simp at hsnap
  | some snap =>
    have h := processPlaylists_isSome cat client allow del m snap
      hcreate hsearch pls Counters.zero
    simpa [import_playlists_from_json, hs] using h

/-- Concrete client whose `search` raises (uncaught by the script). -/
def clRaise : RemoteClient where
  library_playlists := some []
  delete_playlist := fun _ => true
  create_playlist := fun _ _ => some "pl"
  get_playlist := fun _ => some []
  search := fun _ => none
  add_playlist_items := fun _ _ _ => .ok

/-- Concrete client whose `get_library_playlists` snapshot fetch raises
(uncaught by the script, line 154). -/
def clRaiseSnap : RemoteClient where
  library_playlists := none
  delete_playlist := fun _ => true
  create_playlist := fun _ _ => some "pl"
  get_playlist := fun _ => some []
  search := fun _ => some [⟨"v1", "t", []⟩]
  add_playlist_items := fun _ _ _ => .ok

/-- Counterexample to C4 as stated: after successful initialization, an
exception raised by the `search` call of a single track aborts the whole run
(the import returns nothing, no summary counters), and so does an exception
raised by the snapshot fetch `get_library_playlists`. -/
theorem claim_C4_cex :
    import_playlists_from_json catLatin clRaise [⟨"A", "", [⟨"a", "b"⟩]⟩]
        false false 3 = none ∧
      import_playlists_from_json catLatin clRaiseSnap [⟨"A", "", [⟨"a", "b"⟩]⟩]
        false false 3 = none := by
  exact ⟨by decide, by decide⟩

/-- Witness for C4 on a concrete one-playlist input with a total client. -/
theorem claim_C4_witness :
    (import_playlists_from_json catLatin clDup [⟨"A", "", [⟨"a", "b"⟩]⟩]
      false false 3).isSome :=
  claim_C4 catLatin clDup [⟨"A", "", [⟨"a", "b"⟩]⟩] false false 3
    rfl (fun _ _ => rfl) (fun _ => rfl)

/-! ## Structure of per-playlist traces -/

theorem processTrack_event_kinds (client : RemoteClient) (pid : String)
    (baseline : List RemotePlaylistItem) (allow : Bool) (m : Nat) (c : Counters)
    (track : ExportedTrack) (out : TrackOutcome) (c' : Counters) (evs : List Event)
    (h : processTrack client pid baseline allow m c track = some (out, c', evs)) :
    ∀ e ∈ evs, (∃ q, e = .searchCall q) ∨ (∃ p v k, e = .insertCall p v k) ∨
      (∃ s, e = .backoffSleep s) ∨ e = .delaySleep := by
  intro e he
  match hs : client.search (track.name ++ " " ++ track.artist) with
  | none => simp [processTrack, hs] at h
  | some [] =>
    simp [processTrack, hs] at h
    obtain ⟨_, _, hevs⟩ := h
    subst hevs
    simp at he
    exact Or.inl ⟨_, he⟩
  | some (hit :: rest) =>
    by_cases hd : duplicate_found baseline track hit.videoId = true ∧ allow = false
    · simp [processTrack, hs, hd] at h
      obtain ⟨_, _, hevs⟩ := h
      subst hevs
      simp at he
      exact Or.inl ⟨_, he⟩
    · simp [processTrack, hs, hd] at h
      obtain ⟨_, _, hevs⟩ := h
      subst hevs
      simp at he
      rcases he with he | he | he
      · exact Or.inl ⟨_, he⟩
      · rcases insertLoop_event_kinds (client.add_playlist_items pid hit.videoId)
          pid hit.videoId m 0 e he with h' | h'
        · exact Or.inr (Or.inl h')
        · exact Or.inr (Or.inr (Or.inl h'))
      · exact Or.inr (Or.inr (Or.inr he))

theorem processTracks_event_kinds (client : RemoteClient) (pid : String)
    (baseline : List RemotePlaylistItem) (allow : Bool) (m : Nat) :
    ∀ (tracks : List ExportedTrack) (c c' : Counters) (evs : List Event),
      processTracks client pid baseline allow m c tracks = some (c', evs) →
      ∀ e ∈ evs, (∃ q, e = .searchCall q) ∨ (∃ p v k, e = .insertCall p v k) ∨
        (∃ s, e = .backoffSleep s) ∨ e = .delaySleep := by
  intro tracks
  induction tracks with
  | nil =>
    intro c c' evs h e he
    simp [processTracks] at h
    obtain ⟨_, hevs⟩ := h
    subst hevs
    simp at he
  | cons t ts ih =>
    intro c c' evs h e he
    match hpt : processTrack client pid baseline allow m c t with
    | none => simp [processTracks, hpt] at h
    | some (out, c₁, evs₁) =>
      match hpts : processTracks client pid baseline allow m c₁ ts with
      | none => simp [processTracks, hpt, hpts] at h
      | some (c₂, evs₂) =>
        simp [processTracks, hpt, hpts] at h
        obtain ⟨_, hevs⟩ := h
        subst hevs
        rcases List.mem_append.mp he with he | he
        · exact processTrack_event_kinds client pid baseline allow m c t out c₁ evs₁
            hpt e he
        · exact ih c₁ c₂ evs₂ hpts e he

theorem processTrack_playlist_counters (client : RemoteClient) (pid : String)
    (baseline : List RemotePlaylistItem) (allow : Bool) (m : Nat) (c : Counters)
    (track : ExportedTrack) (out : TrackOutcome) (c' : Counters) (evs : List Event)
    (h : processTrack client pid baseline allow m c track = some (out, c', evs)) :
    c'.total_playlists_created = c.total_playlists_created ∧
    c'.total_playlists_existing = c.total_playlists_existing ∧
    c'.total_playlists_deleted = c.total_playlists_deleted := by
  match hs : client.search (track.name ++ " " ++ track.artist) with
  | none => simp [processTrack, hs] at h
  | some [] =>
    simp [processTrack, hs] at h
    obtain ⟨_, hc, _⟩ := h
    subst hc
    exact ⟨rfl, rfl, rfl⟩
  | some (hit :: rest) =>
    by_cases hd : duplicate_found baseline track hit.videoId = true ∧ allow = false
    · simp [processTrack, hs, hd] at h
      obtain ⟨_, hc, _⟩ := h
      subst hc
      exact ⟨rfl, rfl, rfl⟩
    · rcases insertLoop_outcome_cases (client.add_playlist_items pid hit.videoId)
        pid hit.videoId m 0 with ho | ho | ho <;>
      · simp [processTrack, hs, hd, ho] at h
        obtain ⟨_, hc, _⟩ := h
        subst hc
        exact ⟨rfl, rfl, rfl⟩

theorem processTracks_playlist_counters (client : RemoteClient) (pid : String)
    (baseline : List RemotePlaylistItem) (allow : Bool) (m : Nat) :
    ∀ (tracks : List ExportedTrack) (c c' : Counters) (evs : List Event),
      processTracks client pid baseline allow m c tracks = some (c', evs) →
      c'.total_playlists_created = c.total_playlists_created ∧
      c'.total_playlists_existing = c.total_playlists_existing ∧
      c'.total_playlists_deleted = c.total_playlists_deleted := by
  intro tracks
  induction tracks with
  | nil =>
    intro c c' evs h
    simp [processTracks] at h
    obtain ⟨hc, _⟩ := h
    subst hc
    exact ⟨rfl, rfl, rfl⟩
  | cons t ts ih =>
    intro c c' evs h
    match hpt : processTrack client pid baseline allow m c t with
    | none => simp [processTracks, hpt] at h
    | some (out, c₁, evs₁) =>
      match hpts : processTracks client pid baseline allow m c₁ ts with
      | none => simp [processTracks, hpt, hpts] at h
      | some (c₂, evs₂) =>
        simp [processTracks, hpt, hpts] at h
        obtain ⟨hc, _⟩ := h
        subst hc
        have h1 := processTrack_playlist_counters client pid baseline allow m c t
          out c₁ evs₁ hpt
        have h2 := ih c₁ c₂ evs₂ hpts
        exact ⟨h2.1.trans h1.1, h2.2.1.trans h1.2.1, h2.2.2.trans h1.2.2⟩

theorem processResolved_spec (client : RemoteClient) (allow : Bool) (m : Nat)
    (pid : String) (c : Counters) (tracks : List ExportedTrack) (c' : Counters)
    (evs : List Event)
    (h : processResolved client allow m pid c tracks = some (c', evs)) :
    ∃ tevs, evs = .getPlaylistCall pid :: tevs ∧
      processTracks client pid ((client.get_playlist pid).getD []) allow m c tracks =
        some (c', tevs) := by
  match hpts : processTracks client pid ((client.get_playlist pid).getD [])
      allow m c tracks with
  | none => simp [processResolved, hpts] at h
  | some (c₂, evs₂) =>
    simp [processResolved, hpts] at h
    exact ⟨evs₂, h.2.symm, by rw [h.1]⟩

/-- C7: when the sanitized name matches an existing remote playlist
case-insensitively (first match of the snapshot) and `delete_if_exists` is
false, the existing identifier is reused (the baseline fetch targets it),
`total_playlists_existing` is incremented by one, and neither a create call
nor a delete call is issued for that playlist. -/
theorem claim_C7 (cat : Char → String) (client : RemoteClient) (allow : Bool)
    (m : Nat) (snapshot : List RemotePlaylistRef) (c : Counters)
    (p : ExportedPlaylist) (existing : RemotePlaylistRef) (c' : Counters)
    (evs : List Event)
    (hf : snapshot.find? (fun q => pyLower q.title ==
        pyLower (sanitize_playlist_name cat p.playlist_name)) = some existing)
    (h : processPlaylist cat client allow false m snapshot c p = some (c', evs)) :
    c'.total_playlists_existing = c.total_playlists_existing + 1 ∧
    (∀ n d, Event.createCall n d ∉ evs) ∧
    (∀ i, Event.deleteCall i ∉ evs) ∧
    Event.getPlaylistCall existing.playlistId ∈ evs := by
  cases hpr : processResolved client allow m existing.playlistId
      { c with total_playlists_existing := c.total_playlists_existing + 1 }
      p.tracks with
  | none => simp [processPlaylist, hf, hpr] at h
  | some v =>
    obtain ⟨c₂, evs₂⟩ := v
    simp [processPlaylist, hf, hpr] at h
    obtain ⟨hc, hevs⟩ := h
    obtain ⟨tevs, hsplit, hpts⟩ := processResolved_spec client allow m
      existing.playlistId _ p.tracks c₂ evs₂ hpr
    have hk := processTracks_event_kinds client existing.playlistId
      ((client.get_playlist existing.playlistId).getD []) allow m p.tracks _ c₂ tevs hpts
    have hpc := processTracks_playlist_counters client existing.playlistId
      ((client.get_playlist existing.playlistId).getD []) allow m p.tracks _ c₂ tevs hpts
    subst hc
    subst hevs
    subst hsplit
    refine ⟨by simpa using hpc.2.1, ?_, ?_, List.mem_cons_self _ _⟩
    · intro n d hmem
      rcases List.mem_cons.mp hmem with h' | h'
      · simp at h'
      · rcases hk _ h' with ⟨q, h2⟩ | ⟨a, b, k, h2⟩ | ⟨s, h2⟩ | h2 <;> simp at h2
    · intro i hmem
      rcases List.mem_cons.mp hmem with h' | h'
      · simp at h'
      · rcases hk _ h' with ⟨q, h2⟩ | ⟨a, b, k, h2⟩ | ⟨s, h2⟩ | h2 <;> simp at h2

/-- Concrete client with one remote playlist `Mix` in the library. -/
def clSnap : RemoteClient where
  library_playlists := some [⟨"pidX", "Mix"⟩]
  delete_playlist := fun _ => true
  create_playlist := fun _ _ => some "newpid"
  get_playlist := fun _ => some []
  search := fun _ => some [⟨"v1", "t", []⟩]
  add_playlist_items := fun _ _ _ => .ok

/-- Witness for C7: importing a playlist named `Mix` against a snapshot
containing `Mix` with `delete_if_exists = false` reuses `pidX`. -/
theorem claim_C7_witness :
    (⟨0, 1, 0, 0, 0, 0⟩ : Counters).total_playlists_existing =
        Counters.zero.total_playlists_existing + 1 ∧
      Event.getPlaylistCall "pidX" ∈ [Event.getPlaylistCall "pidX"] := by
  have h := claim_C7 catLatin clSnap false 3 [⟨"pidX", "Mix"⟩] Counters.zero
    ⟨"Mix", "", []⟩ ⟨"pidX", "Mix"⟩ ⟨0, 1, 0, 0, 0, 0⟩ [.getPlaylistCall "pidX"]
    (by decide) (by decide)
  exact ⟨h.1, h.2.2.2⟩

theorem trackEvents_no_admin (evs : List Event)
    (hk : ∀ e ∈ evs, (∃ q, e = .searchCall q) ∨ (∃ p v k, e = .insertCall p v k) ∨
      (∃ s, e = .backoffSleep s) ∨ e = .delaySleep) :
    deleteIds evs = [] ∧ createNames evs = [] ∧
      ∀ i, Event.getPlaylistCall i ∉ evs := by
  induction evs with
  | nil => simp [deleteIds, createNames]
  | cons e t ih =>
    have he := hk e (List.mem_cons_self e t)
    have iht := ih (fun x hx => hk x (List.mem_cons_of_mem e hx))
    rcases he with ⟨q, rfl⟩ | ⟨a, b, k, rfl⟩ | ⟨s, rfl⟩ | rfl <;>
      exact ⟨by simpa [deleteIds] using iht.1, by simpa [createNames] using iht.2.1,
        fun i hi => by
          rcases List.mem_cons.mp hi with h' | h'
          · simp at h'
          · exact iht.2.2 i h'⟩

/-- C8: when the sanitized name matches an existing remote playlist and
`delete_if_exists` is true, exactly one delete call is issued, targeting the
matched entry.  When the delete succeeds, `total_playlists_deleted` is
incremented and exactly one create call follows the delete; when the delete
fails, the playlist is skipped entirely — counters unchanged, no create call,
none of its tracks processed — and the run continues with the next playlist. -/
theorem claim_C8 (cat : Char → String) (client : RemoteClient) (allow : Bool)
    (m : Nat) (snapshot : List RemotePlaylistRef) (c : Counters)
    (p : ExportedPlaylist) (existing : RemotePlaylistRef)
    (hf : snapshot.find? (fun q => pyLower q.title ==
        pyLower (sanitize_playlist_name cat p.playlist_name)) = some existing) :
    (∀ c' evs, client.delete_playlist existing.playlistId = true →
      processPlaylist cat client allow true m snapshot c p = some (c', evs) →
      c'.total_playlists_deleted = c.total_playlists_deleted + 1 ∧
      deleteIds evs = [existing.playlistId] ∧
      createNames evs = [sanitize_playlist_name cat p.playlist_name] ∧
      ∃ rest, evs = .deleteCall existing.playlistId ::
        .createCall (sanitize_playlist_name cat p.playlist_name) p.description ::
          rest) ∧
    (client.delete_playlist existing.playlistId = false →
      processPlaylist cat client allow true m snapshot c p =
        some (c, [.deleteCall existing.playlistId]) ∧
      ∀ ps, processPlaylists cat client allow true m snapshot c (p :: ps) =
        (processPlaylists cat client allow true m snapshot c ps).map
          (fun r => (r.1, .deleteCall existing.playlistId :: r.2))) := by
  constructor
  · intro c' evs hok h
    match hcp : client.create_playlist (sanitize_playlist_name cat p.playlist_name)
        p.description with
    | none => simp [processPlaylist, hf, hok, hcp] at h
    | some pid =>
      cases hpr : processResolved client allow m pid
          { c with total_playlists_created := c.total_playlists_created + 1,
                   total_playlists_deleted := c.total_playlists_deleted + 1 }
          p.tracks with
      | none => simp [processPlaylist, hf, hok, hcp, hpr] at h
      | some v =>
        obtain ⟨c₂, evs₂⟩ := v
        simp [processPlaylist, hf, hok, hcp, hpr] at h
        obtain ⟨hc, hevs⟩ := h
        obtain ⟨tevs, hsplit, hpts⟩ := processResolved_spec client allow m pid _
          p.tracks c₂ evs₂ hpr
        have hk := processTracks_event_kinds client pid
          ((client.get_playlist pid).getD []) allow m p.tracks _ c₂ tevs hpts
        have hpc := processTracks_playlist_counters client pid
          ((client.get_playlist pid).getD []) allow m p.tracks _ c₂ tevs hpts
        have hadm := trackEvents_no_admin tevs hk
        subst hc
        subst hevs
        subst hsplit
        refine ⟨by simpa using hpc.2.2, ?_, ?_, ⟨_, rfl⟩⟩
        · have h1 := hadm.1
          simp only [deleteIds] at h1 ⊢
          simp [h1]
        · have h2 := hadm.2.1
          simp only [createNames] at h2 ⊢
          simp [h2]
  · intro hok
    have h1 : processPlaylist cat client allow true m snapshot c p =
        some (c, [.deleteCall existing.playlistId]) := by
      simp [processPlaylist, hf, hok]
    refine ⟨h1, fun ps => ?_⟩
    cases hps : processPlaylists cat client allow true m snapshot c ps with
    | none => simp [processPlaylists, h1, hps]
    | some v => simp [processPlaylists, h1, hps]

/-- Witness for C8: deleting the matched `Mix` playlist succeeds, the deleted
counter rises by one, and the only delete call targets `pidX`. -/
theorem claim_C8_witness :
    (⟨1, 0, 1, 0, 0, 0⟩ : Counters).total_playlists_deleted =
        Counters.zero.total_playlists_deleted + 1 ∧
      deleteIds [Event.deleteCall "pidX", Event.createCall "Mix" "",
        Event.getPlaylistCall "newpid"] = ["pidX"] := by
  have h := (claim_C8 catLatin clSnap false 3 [⟨"pidX", "Mix"⟩] Counters.zero
    ⟨"Mix", "", []⟩ ⟨"pidX", "Mix"⟩ (by decide)).1 ⟨1, 0, 1, 0, 0, 0⟩
    [.deleteCall "pidX", .createCall "Mix" "", .getPlaylistCall "newpid"]
    (by decide) (by decide)
  exact ⟨h.1, h.2.1⟩

/-- C10: the reconciler always acts on the first snapshot entry matching the
sanitized name case-insensitively: `find?` returns the first match, and the
processed playlist's delete call (under `delete_if_exists`) or baseline fetch
(reuse) targets exactly that entry's identifier — every later matching entry
is ignored. -/
theorem claim_C10 (cat : Char → String) (client : RemoteClient) (allow : Bool)
    (m : Nat) (c : Counters) (p : ExportedPlaylist) :
    (∀ (pre post : List RemotePlaylistRef) (q : RemotePlaylistRef),
      (∀ x ∈ pre,
        pyLower x.title ≠ pyLower (sanitize_playlist_name cat p.playlist_name)) →
      pyLower q.title = pyLower (sanitize_playlist_name cat p.playlist_name) →
      (pre ++ q :: post).find? (fun x => pyLower x.title ==
        pyLower (sanitize_playlist_name cat p.playlist_name)) = some q) ∧
    (∀ snapshot existing c' evs,
      snapshot.find? (fun x => pyLower x.title ==
        pyLower (sanitize_playlist_name cat p.playlist_name)) = some existing →
      processPlaylist cat client allow true m snapshot c p = some (c', evs) →
      Event.deleteCall existing.playlistId ∈ evs ∧
      ∀ i, Event.deleteCall i ∈ evs → i = existing.playlistId) ∧
    (∀ snapshot existing c' evs,
      snapshot.find? (fun x => pyLower x.title ==
        pyLower (sanitize_playlist_name cat p.playlist_name)) = some existing →
      processPlaylist cat client allow false m snapshot c p = some (c', evs) →
      Event.getPlaylistCall existing.playlistId ∈ evs ∧
      ∀ i, Event.getPlaylistCall i ∈ evs → i = existing.playlistId) := by
  refine ⟨?_, ?_, ?_⟩
  · intro pre
    induction pre with
    | nil =>
      intro post q _ hq
      simp [List.find?, hq]
    | cons x xs ih =>
      intro post q hpre hq
      have hx : pyLower x.title ≠ pyLower (sanitize_playlist_name cat p.playlist_name) :=
        hpre x (List.mem_cons_self x xs)
      simp only [List.cons_append, List.find?]
      rw [beq_eq_false_iff_ne.mpr hx]
      exact ih post q (fun y hy => hpre y (List.mem_cons_of_mem x hy)) hq
  · intro snapshot existing c' evs hf h
    by_cases hok : client.delete_playlist existing.playlistId = true
    · match hcp : client.create_playlist (sanitize_playlist_name cat p.playlist_name)
          p.description with
      | none => simp [processPlaylist, hf, hok, hcp] at h
      | some pid =>
        cases hpr : processResolved client allow m pid
            { c with total_playlists_created := c.total_playlists_created + 1,
                     total_playlists_deleted := c.total_playlists_deleted + 1 }
            p.tracks with
        | none => simp [processPlaylist, hf, hok, hcp, hpr] at h
        | some v =>
          obtain ⟨c₂, evs₂⟩ := v
          simp [processPlaylist, hf, hok, hcp, hpr] at h
          obtain ⟨hc, hevs⟩ := h
          obtain ⟨tevs, hsplit, hpts⟩ := processResolved_spec client allow m pid _
            p.tracks c₂ evs₂ hpr
          have hk := processTracks_event_kinds client pid
            ((client.get_playlist pid).getD []) allow m p.tracks _ c₂ tevs hpts
          subst hevs
          subst hsplit
          refine ⟨List.mem_cons_self _ _, ?_⟩
          intro i hi
          rcases List.mem_cons.mp hi with h' | h'
          · exact (Event.deleteCall.injEq i existing.playlistId).mp h'
          · rcases List.mem_cons.mp h' with h'' | h''
            · simp at h''
            · rcases List.mem_cons.mp h'' with h3 | h3
              · simp at h3
              · rcases hk _ h3 with ⟨q, h4⟩ | ⟨a, b, k, h4⟩ | ⟨s, h4⟩ | h4 <;> simp at h4
    · have hok' : client.delete_playlist existing.playlistId = false := by
        simpa using hok
      simp [processPlaylist, hf, hok'] at h
      obtain ⟨_, hevs⟩ := h
      subst hevs
      exact ⟨List.mem_cons_self _ _, by
        intro i hi
        rcases List.mem_cons.mp hi with h' | h'
        · exact (Event.deleteCall.injEq i existing.playlistId).mp h'
        · simp at h'⟩
  · intro snapshot existing c' evs hf h
    cases hpr : processResolved client allow m existing.playlistId
        { c with total_playlists_existing := c.total_playlists_existing + 1 }
        p.tracks with
    | none => simp [processPlaylist, hf, hpr] at h
    | some v =>
      obtain ⟨c₂, evs₂⟩ := v
      simp [processPlaylist, hf, hpr] at h
      obtain ⟨hc, hevs⟩ := h
      obtain ⟨tevs, hsplit, hpts⟩ := processResolved_spec client allow m
        existing.playlistId _ p.tracks c₂ evs₂ hpr
      have hk := processTracks_event_kinds client existing.playlistId
        ((client.get_playlist existing.playlistId).getD []) allow m p.tracks _ c₂
        tevs hpts
      subst hevs
      subst hsplit
      refine ⟨List.mem_cons_self _ _, ?_⟩
      intro i hi
      rcases List.mem_cons.mp hi with h' | h'
      · exact (Event.getPlaylistCall.injEq i existing.playlistId).mp h'
      · rcases hk _ h' with ⟨q, h4⟩ | ⟨a, b, k, h4⟩ | ⟨s, h4⟩ | h4 <;> simp at h4

/-- Witness for C10: with two case-insensitive matches (`Mix` then `MIX`) in
the snapshot, the first one is found. -/
theorem claim_C10_witness :
    (([⟨"pidA", "Other"⟩] : List RemotePlaylistRef) ++
        (⟨"pidX", "Mix"⟩ : RemotePlaylistRef) ::
        ([⟨"pidY", "MIX"⟩] : List RemotePlaylistRef)).find? (fun x => pyLower x.title ==
      pyLower (sanitize_playlist_name catLatin
        (⟨"Mix", "", []⟩ : ExportedPlaylist).playlist_name)) =
      some ⟨"pidX", "Mix"⟩ :=
  (claim_C10 catLatin clSnap false 3 Counters.zero ⟨"Mix", "", []⟩).1
    [⟨"pidA", "Other"⟩] [⟨"pidY", "MIX"⟩] ⟨"pidX", "Mix"⟩
    (by decide) (by decide)

theorem processPlaylist_shape (cat : Char → String) (client : RemoteClient)
    (allow del : Bool) (m : Nat) (snapshot : List RemotePlaylistRef) (c : Counters)
    (p : ExportedPlaylist) (c' : Counters) (evs : List Event)
    (h : processPlaylist cat client allow del m snapshot c p = some (c', evs)) :
    (createNames evs = [] ∧
      c'.total_playlists_existing = c.total_playlists_existing + 1) ∨
    (createNames evs = [sanitize_playlist_name cat p.playlist_name] ∧
      c'.total_playlists_existing = c.total_playlists_existing) ∨
    (createNames evs = [] ∧
      c'.total_playlists_existing = c.total_playlists_existing) := by
  match hf : snapshot.find? (fun q => pyLower q.title ==
      pyLower (sanitize_playlist_name cat p.playlist_name)) with
  | some existing =>
    cases del with
    | true =>
      by_cases hok : client.delete_playlist existing.playlistId = true
      · match hcp : client.create_playlist (sanitize_playlist_name cat p.playlist_name)
            p.description with
        | none => simp [processPlaylist, hf, hok, hcp] at h
        | some pid =>
          cases hpr : processResolved client allow m pid
              { c with total_playlists_created := c.total_playlists_created + 1,
                       total_playlists_deleted := c.total_playlists_deleted + 1 }
              p.tracks with
          | none => simp [processPlaylist, hf, hok, hcp, hpr] at h
          | some v =>
            obtain ⟨c₂, evs₂⟩ := v
            simp [processPlaylist, hf, hok, hcp, hpr] at h
            obtain ⟨hc, hevs⟩ := h
            obtain ⟨tevs, hsplit, hpts⟩ := processResolved_spec client allow m pid _
              p.tracks c₂ evs₂ hpr
            have hadm := trackEvents_no_admin tevs (processTracks_event_kinds client
              pid ((client.get_playlist pid).getD []) allow m p.tracks _ c₂ tevs hpts)
            have hpc := processTracks_playlist_counters client pid
              ((client.get_playlist pid).getD []) allow m p.tracks _ c₂ tevs hpts
            subst hc
            subst hevs
            subst hsplit
            refine Or.inr (Or.inl ⟨?_, by simpa using hpc.2.1⟩)
            have h2 := hadm.2.1
            simp only [createNames] at h2 ⊢
            simp [h2]
      · have hok' : client.delete_playlist existing.playlistId = false := by
          simpa using hok
        simp [processPlaylist, hf, hok'] at h
        obtain ⟨hc, hevs⟩ := h
        subst hc
        subst hevs
        exact Or.inr (Or.inr ⟨by simp [createNames], rfl⟩)
    | false =>
      cases hpr : processResolved client allow m existing.playlistId
          { c with total_playlists_existing := c.total_playlists_existing + 1 }
          p.tracks with
      | none => simp [processPlaylist, hf, hpr] at h
      | some v =>
        obtain ⟨c₂, evs₂⟩ := v
        simp [processPlaylist, hf, hpr] at h
        obtain ⟨hc, hevs⟩ := h
        obtain ⟨tevs, hsplit, hpts⟩ := processResolved_spec client allow m
          existing.playlistId _ p.tracks c₂ evs₂ hpr
        have hadm := trackEvents_no_admin tevs (processTracks_event_kinds client
          existing.playlistId ((client.get_playlist existing.playlistId).getD [])
          allow m p.tracks _ c₂ tevs hpts)
        have hpc := processTracks_playlist_counters client existing.playlistId
          ((client.get_playlist existing.playlistId).getD []) allow m p.tracks _ c₂
          tevs hpts
        subst hc
        subst hevs
        subst hsplit
        refine Or.inl ⟨?_, by simpa using hpc.2.1⟩
        have h2 := hadm.2.1
        simp only [createNames] at h2 ⊢
        simp [h2]
  | none =>
    match hcp : client.create_playlist (sanitize_playlist_name cat p.playlist_name)
        p.description with
    | none => simp [processPlaylist, hf, hcp] at h
    | some pid =>
      cases hpr : processResolved client allow m pid
          { c with total_playlists_created := c.total_playlists_created + 1 }
          p.tracks with
      | none => simp [processPlaylist, hf, hcp, hpr] at h
      | some v =>
        obtain ⟨c₂, evs₂⟩ := v
        simp [processPlaylist, hf, hcp, hpr] at h
        obtain ⟨hc, hevs⟩ := h
        obtain ⟨tevs, hsplit, hpts⟩ := processResolved_spec client allow m pid _
          p.tracks c₂ evs₂ hpr
        have hadm := trackEvents_no_admin tevs (processTracks_event_kinds client
          pid ((client.get_playlist pid).getD []) allow m p.tracks _ c₂ tevs hpts)
        have hpc := processTracks_playlist_counters client pid
          ((client.get_playlist pid).getD []) allow m p.tracks _ c₂ tevs hpts
        subst hc
        subst hevs
        subst hsplit
        refine Or.inr (Or.inl ⟨?_, by simpa using hpc.2.1⟩)
        have h2 := hadm.2.1
        simp only [createNames] at h2 ⊢
        simp [h2]

theorem processPlaylist_createNames (cat : Char → String) (client : RemoteClient)
    (allow del : Bool) (m : Nat) (snapshot : List RemotePlaylistRef) (c : Counters)
    (p : ExportedPlaylist) (c' : Counters) (evs : List Event)
    (h : processPlaylist cat client allow del m snapshot c p = some (c', evs)) :
    createNames evs = [] ∨
      createNames evs = [sanitize_playlist_name cat p.playlist_name] := by
  rcases processPlaylist_shape cat client allow del m snapshot c p c' evs h with
    ⟨h1, _⟩ | ⟨h1, _⟩ | ⟨h1, _⟩
  · exact Or.inl h1
  · exact Or.inr h1
  · exact Or.inl h1

theorem processPlaylists_createNames_sub (cat : Char → String)
    (client : RemoteClient) (allow del : Bool) (m : Nat)
    (snapshot : List RemotePlaylistRef) :
    ∀ (pls : List ExportedPlaylist) (c c'' : Counters) (evs : List Event),
      processPlaylists cat client allow del m snapshot c pls = some (c'', evs) →
      ∀ n ∈ createNames evs, ∃ p ∈ pls,
        n = sanitize_playlist_name cat p.playlist_name := by
  intro pls
  induction pls with
  | nil =>
    intro c c'' evs h n hn
    simp [processPlaylists] at h
    obtain ⟨_, hevs⟩ := h
    subst hevs
    simp [createNames] at hn
  | cons p ps ih =>
    intro c c'' evs h n hn
    match hp : processPlaylist cat client allow del m snapshot c p with
    | none => simp [processPlaylists, hp] at h
    | some (c₁, evp) =>
      match hps : processPlaylists cat client allow del m snapshot c₁ ps with
      | none => simp [processPlaylists, hp, hps] at h
      | some (c₂, evrest) =>
        simp [processPlaylists, hp, hps] at h
        obtain ⟨_, hevs⟩ := h
        subst hevs
        simp only [createNames, List.filterMap_append] at hn
        rcases List.mem_append.mp hn with hn | hn
        · rcases processPlaylist_createNames cat client allow del m snapshot c p c₁
            evp hp with h0 | h0 <;> simp only [createNames] at h0 <;> rw [h0] at hn
          · simp at hn
          · simp at hn
            exact ⟨p, List.mem_cons_self p ps, hn⟩
        · obtain ⟨q, hq, hqn⟩ := ih c₁ c₂ evrest hps n hn
          exact ⟨q, List.mem_cons_of_mem p hq, hqn⟩

/-- C6 as amended: each `ExportedPlaylist` receives at most one create-or-reuse
decision per run (the number of create calls plus the growth of
`total_playlists_existing` during one playlist is at most one); and when the
input playlists' sanitized names are pairwise case-insensitively distinct, no
playlist is created twice — every pair of create calls in the run uses
case-insensitively different names.  (Without that distinctness hypothesis two
input playlists with the same name are both created, because the remote
snapshot is fetched once and never refreshed.) -/
theorem claim_C6 (cat : Char → String) (client : RemoteClient)
    (allow del : Bool) (m : Nat) (snapshot : List RemotePlaylistRef) :
    (∀ (c : Counters) (p : ExportedPlaylist) (c' : Counters) (evs : List Event),
      processPlaylist cat client allow del m snapshot c p = some (c', evs) →
      (createNames evs).length +
        (c'.total_playlists_existing - c.total_playlists_existing) ≤ 1) ∧
    (∀ (pls : List ExportedPlaylist) (c c'' : Counters) (evs : List Event),
      pls.Pairwise (fun p q => pyLower (sanitize_playlist_name cat p.playlist_name) ≠
        pyLower (sanitize_playlist_name cat q.playlist_name)) →
      processPlaylists cat client allow del m snapshot c pls = some (c'', evs) →
      (createNames evs).Pairwise (fun a b => pyLower a ≠ pyLower b)) := by
  constructor
  · intro c p c' evs h
    rcases processPlaylist_shape cat client allow del m snapshot c p c' evs h with
      ⟨h1, h2⟩ | ⟨h1, h2⟩ | ⟨h1, h2⟩ <;> rw [h1, h2] <;> simp
  · intro pls
    induction pls with
    | nil =>
      intro c c'' evs _ h
      simp [processPlaylists] at h
      obtain ⟨_, hevs⟩ := h
      subst hevs
      simp [createNames]
    | cons p ps ih =>
      intro c c'' evs hdist h
      match hp : processPlaylist cat client allow del m snapshot c p with
      | none => simp [processPlaylists, hp] at h
      | some (c₁, evp) =>
        match hps : processPlaylists cat client allow del m snapshot c₁ ps with
        | none => simp [processPlaylists, hp, hps] at h
        | some (c₂, evrest) =>
          simp [processPlaylists, hp, hps] at h
          obtain ⟨_, hevs⟩ := h
          subst hevs
          have hdc := List.pairwise_cons.mp hdist
          have ihrest := ih c₁ c₂ evrest hdc.2 hps
          simp only [createNames, List.filterMap_append]
          rw [List.pairwise_append]
          refine ⟨?_, by simpa [createNames] using ihrest, ?_⟩
          · rcases processPlaylist_createNames cat client allow del m snapshot c p c₁
              evp hp with h0 | h0 <;> simp only [createNames] at h0 <;> rw [h0]
            · exact List.Pairwise.nil
            · simp
          · intro a ha b hb
            rcases processPlaylist_createNames cat client allow del m snapshot c p c₁
              evp hp with h0 | h0 <;> simp only [createNames] at h0 <;> rw [h0] at ha
            · simp at ha
            · simp at ha
              obtain ⟨q, hq, hqn⟩ := processPlaylists_createNames_sub cat client allow
                del m snapshot ps c₁ c₂ evrest hps b (by simpa [createNames] using hb)
              rw [ha, hqn]
              exact hdc.1 q hq

/-- Counterexample to C6 as stated: two input playlists with the same name
`A` against an empty snapshot are both created — the two create calls use the
same sanitized name, because the snapshot is fetched once and not refreshed
after the first creation. -/
theorem claim_C6_cex :
    import_playlists_from_json catLatin clDup [⟨"A", "", []⟩, ⟨"A", "", []⟩]
        false false 3 =
      some (⟨2, 0, 0, 0, 0, 0⟩,
        [.createCall "A" "", .getPlaylistCall "pl",
         .createCall "A" "", .getPlaylistCall "pl"]) ∧
    createNames [.createCall "A" "", .getPlaylistCall "pl",
        .createCall "A" "", .getPlaylistCall "pl"] = ["A", "A"] ∧
    ¬ (["A", "A"] : List String).Pairwise (fun a b => pyLower a ≠ pyLower b) := by
  refine ⟨by decide, by decide, ?_⟩
  intro h
  exact (List.pairwise_cons.mp h).1 "A" (by simp) rfl

/-- Witness for C6: with two distinct input names `A` and `B` the create
calls of the run are pairwise case-insensitively distinct. -/
theorem claim_C6_witness :
    (createNames [.createCall "A" "", .getPlaylistCall "pl",
        .createCall "B" "", .getPlaylistCall "pl"]).Pairwise
      (fun a b => pyLower a ≠ pyLower b) :=
  (claim_C6 catLatin clDup false false 3 []).2 [⟨"A", "", []⟩, ⟨"B", "", []⟩]
    Counters.zero ⟨2, 0, 0, 0, 0, 0⟩
    [.createCall "A" "", .getPlaylistCall "pl",
     .createCall "B" "", .getPlaylistCall "pl"]
    (by decide) (by decide)

/-! ## The name sanitizer -/

theorem dropWhile_idem (q : α → Bool) (l : List α) :
    (l.dropWhile q).dropWhile q = l.dropWhile q := by
  induction l with
  | nil => rfl
  | cons a t ih => cases h : q a <;> simp [List.dropWhile_cons, h, ih]

theorem dropWhile_head_false (q : α → Bool) (l : List α) :
    ∀ x xs, l.dropWhile q = x :: xs → q x = false := by
  induction l with
  | nil => intro x xs h; simp at h
  | cons a t ih =>
    intro x xs h
    cases ha : q a
    · rw [List.dropWhile_cons, ha] at h
      simp at h
      rw [← h.1]
      exact ha
    · rw [List.dropWhile_cons, ha] at h
      simp at h
      exact ih x xs h

theorem dropWhile_eq_self_of_head (q : α → Bool) (l : List α)
    (h : ∀ x xs, l = x :: xs → q x = false) : l.dropWhile q = l := by
  cases l with
  | nil => rfl
  | cons a t => simp [List.dropWhile_cons, h a t rfl]

theorem head_dropWhile_rev (q : α → Bool) (l : List α) (h : l.dropWhile q ≠ []) :
    (l.dropWhile q).reverse.head? = l.reverse.head? := by
  induction l with
  | nil => simp at h
  | cons a t ih =>
    cases ha : q a
    · rw [List.dropWhile_cons, ha]
      simp
    · have h' : List.dropWhile q t ≠ [] := by
        simpa [List.dropWhile_cons, ha] using h
      have ht : t ≠ [] := by
        intro h0
        rw [h0] at h'
        simp at h'
      have htr : t.reverse ≠ [] := by simpa using ht
      have hgoal : (a :: t).dropWhile q = t.dropWhile q := by
        simp [List.dropWhile_cons, ha]
      rw [hgoal, ih h', List.reverse_cons]
      cases hh : t.reverse with
      | nil => exact absurd hh htr
      | cons y ys => simp

theorem mem_of_mem_dropWhile (q : α → Bool) (l : List α) (x : α)
    (h : x ∈ l.dropWhile q) : x ∈ l := by
  obtain ⟨t, ht⟩ := List.dropWhile_suffix (l := l) q
  rw [← ht]
  exact List.mem_append_right t h

theorem mem_stripChars (m : List Char) (x : Char) (h : x ∈ stripChars m) :
    x ∈ m := by
  unfold stripChars at h
  rw [List.mem_reverse] at h
  have h1 := mem_of_mem_dropWhile _ _ _ h
  rw [List.mem_reverse] at h1
  exact mem_of_mem_dropWhile _ _ _ h1

theorem stripChars_idem (l : List Char) :
    stripChars (stripChars l) = stripChars l := by
  have key : ∀ x xs, stripChars l = x :: xs → isPySpace x = false := by
    intro x xs hbx
    have hbne : (l.dropWhile isPySpace).reverse.dropWhile isPySpace ≠ [] := by
      intro h0
      unfold stripChars at hbx
      rw [h0] at hbx
      simp at hbx
    have h1 := head_dropWhile_rev isPySpace (l.dropWhile isPySpace).reverse hbne
    rw [List.reverse_reverse] at h1
    unfold stripChars at hbx
    rw [hbx] at h1
    cases ha : l.dropWhile isPySpace with
    | nil => rw [ha] at h1; simp at h1
    | cons y ys =>
      rw [ha] at h1
      simp at h1
      rw [h1]
      exact dropWhile_head_false isPySpace l y ys ha
  have hA : (stripChars l).dropWhile isPySpace = stripChars l :=
    dropWhile_eq_self_of_head isPySpace (stripChars l) key
  have hstep : stripChars (stripChars l) =
      (((stripChars l).dropWhile isPySpace).reverse.dropWhile isPySpace).reverse := rfl
  rw [hstep, hA]
  have hrev : (stripChars l).reverse =
      (l.dropWhile isPySpace).reverse.dropWhile isPySpace := by
    unfold stripChars
    rw [List.reverse_reverse]
  rw [hrev, dropWhile_idem]
  rfl

theorem sanitizeChars_idem (cat : Char → String) (l : List Char) :
    sanitizeChars cat (sanitizeChars cat l) = sanitizeChars cat l := by
  have hv : (sanitizeChars cat l).filter (is_valid_char cat) =
      sanitizeChars cat l := by
    rw [List.filter_eq_self]
    intro a ha
    have h1 := mem_stripChars _ _ ha
    rw [List.mem_filter] at h1
    have h2 := h1.1
    rw [List.mem_filter] at h2
    exact h2.2
  have hw : (sanitizeChars cat l).filter (fun c => !invalidFileChar c) =
      sanitizeChars cat l := by
    rw [List.filter_eq_self]
    intro a ha
    have h1 := mem_stripChars _ _ ha
    rw [List.mem_filter] at h1
    exact h1.2
  show stripChars (((sanitizeChars cat l).filter (is_valid_char cat)).filter
    (fun c => !invalidFileChar c)) = sanitizeChars cat l
  rw [hv, hw]
  exact stripChars_idem _

/-- C9: the sanitizer is a total function (hence deterministic), idempotent
for every input string and every category table; and on strings all of whose
characters are kept by both filters — letters, digits, spaces and accented
letters all have Unicode categories `L*`, `N*`, `Z*` or `M*`, none starting
with `C` or `S`, and none of them is among `\ / * ? : " < > |` — it only
strips the surrounding whitespace, `sanitize(x) = x.strip()`. -/
theorem claim_C9 (cat : Char → String) :
    (∀ name : String, sanitize_playlist_name cat (sanitize_playlist_name cat name) =
      sanitize_playlist_name cat name) ∧
    (∀ name : String,
      (∀ c ∈ name.data, is_valid_char cat c = true ∧ invalidFileChar c = false) →
      sanitize_playlist_name cat name = pyStrip name) := by
  constructor
  · intro name
    show (⟨sanitizeChars cat (sanitize_playlist_name cat name).data⟩ : String) = _
    show (⟨sanitizeChars cat (sanitizeChars cat name.data)⟩ : String) = _
    rw [sanitizeChars_idem]
    rfl
  · intro name h
    show (⟨sanitizeChars cat name.data⟩ : String) = ⟨stripChars name.data⟩
    have hv : name.data.filter (is_valid_char cat) = name.data := by
      rw [List.filter_eq_self]
      exact fun a ha => (h a ha).1
    have hw : name.data.filter (fun c => !invalidFileChar c) = name.data := by
      rw [List.filter_eq_self]
      intro a ha
      rw [(h a ha).2]
      rfl
    show (⟨stripChars ((name.data.filter (is_valid_char cat)).filter
      (fun c => !invalidFileChar c))⟩ : String) = ⟨stripChars name.data⟩
    rw [hv, hw]

/-- Witness for C9 on the concrete Latin category table and a padded name. -/
theorem claim_C9_witness :
    sanitize_playlist_name catLatin
        (sanitize_playlist_name catLatin "  My Mix 99  ") =
      sanitize_playlist_name catLatin "  My Mix 99  " ∧
    sanitize_playlist_name catLatin "  My Mix 99  " = pyStrip "  My Mix 99  " :=
  ⟨(claim_C9 catLatin).1 "  My Mix 99  ",
   (claim_C9 catLatin).2 "  My Mix 99  " (by decide)⟩

end YTImport
